import Mathlib

/-!
Verification development for `bch-tx-editor`'s CashAssembly bridge.

The repository's own JavaScript (the reexport module) creates one libauth
BCH compiler, overwrites its single script slot on every call, returns the
generated bytecode on success and throws a formatted string on failure; it
also reexports the BCH disassembler.  The compiler and disassembler
themselves live in `@bitauth/libauth` and are not part of the repository's
sources, so they are modelled here from the specification: tokenizer,
identifier resolution with depth-checked recursive script expansion,
minimal push encoding, aggregated staged diagnostics, and a total
disassembler with truncation markers.
-/

set_option maxHeartbeats 4000000

namespace BchTxEditor

/-- Modelled from the spec: whitespace characters separating CashAssembly
tokens (missing libauth tokenizer; "parsing is whitespace/line-structured"). -/
def isWs (c : Char) : Bool := c = ' ' || c = '\n' || c = '\t' || c = '\r'

/-- Modelled from the spec: tokenizer worker, accumulating the current word
in reverse while scanning the remaining characters. -/
def tokenizeGo : List Char → List Char → List (List Char)
  | cur, [] => if cur.isEmpty then [] else [cur.reverse]
  | cur, c :: cs =>
    if isWs c then
      if cur.isEmpty then tokenizeGo [] cs else cur.reverse :: tokenizeGo [] cs
    else tokenizeGo (c :: cur) cs

/-- Modelled from the spec: split CashAssembly source text into
whitespace-separated tokens (missing libauth tokenizer). -/
def tokenize (cs : List Char) : List (List Char) := tokenizeGo [] cs

/-- Join tokens with single spaces: the canonical rendering of a token
sequence as assembly text. -/
def joinTokens : List (List Char) → List Char
  | [] => []
  | [t] => t
  | t :: ts => t ++ ' ' :: joinTokens ts

/-- The sixteen lower-case hexadecimal digit characters, in value order. -/
def hexChars : List Char := "0123456789abcdef".data

/-- Lower-case hexadecimal digit for a value below 16. -/
def hexDig (d : Nat) : Char := hexChars.getD d '0'

/-- Value of a lower-case hexadecimal digit character. -/
def hexVal (c : Char) : Option Nat :=
  if c = '0' then some 0 else if c = '1' then some 1 else if c = '2' then some 2
  else if c = '3' then some 3 else if c = '4' then some 4 else if c = '5' then some 5
  else if c = '6' then some 6 else if c = '7' then some 7 else if c = '8' then some 8
  else if c = '9' then some 9 else if c = 'a' then some 10 else if c = 'b' then some 11
  else if c = 'c' then some 12 else if c = 'd' then some 13 else if c = 'e' then some 14
  else if c = 'f' then some 15 else none

/-- Render a byte sequence as lower-case hexadecimal text. -/
def toHex : List Nat → List Char
  | [] => []
  | b :: bs => hexDig (b / 16) :: hexDig (b % 16) :: toHex bs

/-- Parse hexadecimal text (an even number of digits) back into bytes. -/
def parseHexChars : List Char → Option (List Nat)
  | [] => some []
  | [_] => none
  | c1 :: c2 :: cs =>
    match hexVal c1, hexVal c2, parseHexChars cs with
    | some hi, some lo, some rest => some ((16 * hi + lo) :: rest)
    | _, _, _ => none

/-- Modelled from the spec: canonical rendering of a push-data payload as a
hex literal token in assembly text (missing libauth disassembler rendering). -/
def renderPush (p : List Nat) : List Char := '<' :: '0' :: 'x' :: (toHex p ++ ['>'])

/-- Modelled from the spec: parse a `<0x..>` push-data literal token
(missing libauth CashAssembly literal grammar). -/
def parsePushToken : List Char → Option (List Nat)
  | '<' :: '0' :: 'x' :: rest =>
    match rest.getLast? with
    | some '>' => parseHexChars rest.dropLast
    | _ => none
  | _ => none

/-- Modelled from the spec: the explicit "unparsed-tail" marker emitted for a
truncated push, noting the bytes read so far (missing libauth disassembler). -/
def truncMarkerTok (bs : List Nat) : List Char :=
  ("[truncated_push:0x".data) ++ toHex bs ++ [']']

/-- Modelled from the spec: the opcode table shared by assembler and
disassembler (given externally, not designed by the repository); a
representative selection of BCH opcodes with their byte values. -/
def OPCODES : List (String × Nat) :=
  [("OP_0", 0), ("OP_1NEGATE", 79), ("OP_1", 81), ("OP_2", 82), ("OP_3", 83),
   ("OP_IF", 99), ("OP_ELSE", 103), ("OP_ENDIF", 104), ("OP_VERIFY", 105),
   ("OP_RETURN", 106), ("OP_DROP", 117), ("OP_DUP", 118), ("OP_SWAP", 124),
   ("OP_EQUAL", 135), ("OP_EQUALVERIFY", 136), ("OP_ADD", 147), ("OP_SUB", 148),
   ("OP_SHA256", 168), ("OP_HASH160", 169), ("OP_CODESEPARATOR", 171),
   ("OP_CHECKSIG", 172), ("OP_CHECKMULTISIG", 174)]

/-- Look a token up in a mnemonic table by its name. -/
def lookupOpcodeIn : List (String × Nat) → List Char → Option Nat
  | [], _ => none
  | e :: es, t => if e.1.data = t then some e.2 else lookupOpcodeIn es t

/-- Mnemonic-to-byte lookup against the opcode table. -/
def lookupOpcode (t : List Char) : Option Nat := lookupOpcodeIn OPCODES t

/-- Byte-to-mnemonic lookup against the opcode table. -/
def mnemonicFor (b : Nat) : Option String :=
  (OPCODES.find? (fun e => e.2 == b)).map (fun e => e.1)

/-- An instruction is an opcode reference or a push-data literal. -/
inductive Instruction
  | opcode (b : Nat)
  | push (payload : List Nat)
  deriving DecidableEq, Repr

/-- Largest payload length any push form can carry (PUSHDATA4's 32-bit
length field). -/
def maxPushSize : Nat := 4294967295

/-- Modelled from the spec: minimal-length push encoding, determined solely
by payload length (missing libauth encoder): direct push up to 75 bytes,
then PUSHDATA1/2/4 with little-endian length fields. -/
def encodePush (p : List Nat) : List Nat :=
  if p.length ≤ 75 then p.length :: p
  else if p.length ≤ 255 then 76 :: p.length :: p
  else if p.length ≤ 65535 then 77 :: (p.length % 256) :: (p.length / 256) :: p
  else 78 :: (p.length % 256) :: (p.length / 256 % 256) :: (p.length / 65536 % 256) ::
    (p.length / 16777216) :: p

/-- Byte-level encoding of one instruction. -/
def encodeInstr : Instruction → List Nat
  | .opcode b => [b]
  | .push p => encodePush p

/-- Byte-level encoding of an instruction sequence. -/
def encodeAll : List Instruction → List Nat
  | [] => []
  | i :: is => encodeInstr i ++ encodeAll is

/-- Size of the shortest push header able to carry a payload of length `n`. -/
def minHeader (n : Nat) : Nat :=
  if n ≤ 75 then 1 else if n ≤ 255 then 2 else if n ≤ 65535 then 3 else 5

/-- Normalize a resolved payload to an instruction: the empty payload is the
single opcode `OP_0` (byte 0), anything else a push literal. -/
def mkPush (p : List Nat) : Instruction :=
  if p.isEmpty then .opcode 0 else .push p

/-- An instruction the resolver can produce: a known opcode, or a nonempty
byte-valued payload small enough for some push form. -/
def wellFormedInstr : Instruction → Bool
  | .opcode b => (mnemonicFor b).isSome
  | .push p => !p.isEmpty && p.length ≤ maxPushSize && p.all (fun x => x < 256)

/-- Stage that produced a diagnostic: the spec's error taxonomy. -/
inductive Stage
  | parse
  | resolve
  | encode
  deriving DecidableEq, Repr

/-- Printable tag of a stage, used as the result's error-type tag. -/
def stageName : Stage → String
  | .parse => "parse"
  | .resolve => "resolve"
  | .encode => "encode"

/-- One structured diagnostic: its stage and its message (the field is named
`error` as in the source's `result.errors.map((err) => err.error)`). -/
structure Diagnostic where
  stage : Stage
  error : String
  deriving DecidableEq, Repr

/-- Tagged union returned by compilation: bytecode, or an error-type tag
with the ordered aggregated diagnostics. -/
inductive CompilationResult
  | success (bytecode : List Nat)
  | failure (errorType : Stage) (errors : List Diagnostic)
  deriving DecidableEq, Repr

/-- The identifier table: named scripts and named operations (an operation
is modelled as naming the data parameter whose bytes it pushes). -/
structure CompilerConfiguration where
  scripts : List (String × String)
  operations : List (String × String)
  deriving DecidableEq, Repr

/-- A compilation request: target script identifier plus data parameters. -/
structure CompilationRequest where
  scriptId : String
  data : List (String × List Nat)
  deriving DecidableEq, Repr

/-- First-match association-list lookup (JavaScript object property read). -/
def lookupA {α : Type} : String → List (String × α) → Option α
  | _, [] => none
  | k, e :: es => if k = e.1 then some e.2 else lookupA k es

/-- Resolve-stage diagnostic for an identifier bound nowhere. -/
def unknownIdentifierDiag (t : List Char) : Diagnostic :=
  ⟨.resolve, "Unknown identifier: " ++ String.mk t⟩

/-- Parse-stage diagnostic for a malformed push literal. -/
def malformedLiteralDiag (t : List Char) : Diagnostic :=
  ⟨.parse, "Malformed push literal: " ++ String.mk t⟩

/-- Encode-stage diagnostic for a payload no push form can carry. -/
def oversizedPushDiag (t : List Char) : Diagnostic :=
  ⟨.encode, "Invalid push payload: " ++ String.mk t⟩

/-- Resolve-stage diagnostic produced by the cycle/depth check. -/
def cycleDiag (t : List Char) : Diagnostic :=
  ⟨.resolve, "Maximum resolution depth exceeded while expanding: " ++ String.mk t⟩

/-- Resolve-stage diagnostic for an operation missing its data parameter. -/
def missingDataDiag (t : List Char) : Diagnostic :=
  ⟨.resolve, "Missing data parameter for operation: " ++ String.mk t⟩

/-- Concatenate per-token (diagnostics, instructions) pairs in order. -/
def combinePairs : List (List Diagnostic × List Instruction) →
    List Diagnostic × List Instruction
  | [] => ([], [])
  | p :: ps => (p.1 ++ (combinePairs ps).1, p.2 ++ (combinePairs ps).2)

/-- Modelled from the spec: resolve one token (missing libauth resolver).
Opcode mnemonics map to their byte; `<0x..>` literals parse to pushes (a
malformed one is a parse diagnostic, an overlarge or non-byte payload an
encode diagnostic); identifiers expand recursively through the script
table under a depth budget whose exhaustion is the mandated cycle/depth
resolve diagnostic; operation identifiers push their data parameter; an
identifier bound nowhere accumulates a resolve diagnostic and resolution
continues with the remaining tokens. -/
def resolveOne (cfg : CompilerConfiguration) (data : List (String × List Nat)) :
    Nat → List Char → List Diagnostic × List Instruction
  | fuel, t =>
    match lookupOpcode t with
    | some b => ([], [.opcode b])
    | none =>
      if t.head? = some '<' then
        match parsePushToken t with
        | some p =>
          if p.length ≤ maxPushSize && p.all (fun x => x < 256) then ([], [mkPush p])
          else ([oversizedPushDiag t], [])
        | none => ([malformedLiteralDiag t], [])
      else
        match lookupA (String.mk t) cfg.scripts with
        | some src =>
          match fuel with
          | 0 => ([cycleDiag t], [])
          | fuel' + 1 => combinePairs ((tokenize src.data).map (resolveOne cfg data fuel'))
        | none =>
          match lookupA (String.mk t) cfg.operations with
          | some pname =>
            match lookupA pname data with
            | some payload =>
              if payload.length ≤ maxPushSize && payload.all (fun x => x < 256) then
                ([], [mkPush payload])
              else ([oversizedPushDiag t], [])
            | none => ([missingDataDiag t], [])
          | none => ([unknownIdentifierDiag t], [])

/-- Resolve a token sequence, concatenating diagnostics and instructions. -/
def resolveToks (cfg : CompilerConfiguration) (data : List (String × List Nat))
    (fuel : Nat) (ts : List (List Char)) : List Diagnostic × List Instruction :=
  combinePairs (ts.map (resolveOne cfg data fuel))

/-- Depth budget for recursive script expansion. -/
def maxResolutionDepth : Nat := 256

/-- Modelled from the spec: the compile entry point (libauth's
`generateBytecode`, missing from the sources).  Looks the target script up,
resolves its tokens, and returns `success` with the concatenated encoding
when no diagnostic accumulated, otherwise `failure` tagged with the first
diagnostic's stage and carrying all diagnostics in source order. -/
def generateBytecode (cfg : CompilerConfiguration) (req : CompilationRequest) :
    CompilationResult :=
  match lookupA req.scriptId cfg.scripts with
  | none => .failure .resolve [⟨.resolve, "Unknown script: " ++ req.scriptId⟩]
  | some src =>
    match resolveToks cfg req.data maxResolutionDepth (tokenize src.data) with
    | ([], instrs) => .success (encodeAll instrs)
    | (d :: ds, _) => .failure d.stage (d :: ds)

/-- Rendering of one opcode byte: its mnemonic, or the best-effort hex
fallback for an unrecognized value. -/
def renderOpcodeTok (b : Nat) : List Char :=
  match mnemonicFor b with
  | some m => m.data
  | none => ("OP_UNKNOWN_0x".data) ++ toHex [b]

/-- The token the disassembler emits for one decoded instruction. -/
def renderInstrTok : Instruction → List Char
  | .opcode b => renderOpcodeTok b
  | .push p => renderPush p

/-- Modelled from the spec: decode one step of the disassembler scan
(missing libauth disassembler).  Given the current byte and the remaining
bytes: bytes 1..75 and the PUSHDATA1/2/4 markers 76/77/78 read a length
and capture that many following bytes as a hex literal token; any other
byte renders as an opcode token; a push whose remaining bytes are
insufficient yields a terminal truncation marker over the bytes read so
far instead of failing.  `inl` carries the emitted token and the bytes
still to scan; `inr` carries the terminal marker token. -/
def decodeOne (b : Nat) (rest : List Nat) :
    (List Char × { r : List Nat // r.length ≤ rest.length }) ⊕ List Char :=
  if 1 ≤ b ∧ b ≤ 75 then
    if b ≤ rest.length then
      .inl (renderPush (rest.take b), ⟨rest.drop b, by simp⟩)
    else .inr (truncMarkerTok (b :: rest))
  else if b = 76 then
    match rest with
    | [] => .inr (truncMarkerTok [b])
    | n :: r2 =>
      if n ≤ r2.length then
        .inl (renderPush (r2.take n), ⟨r2.drop n, by simp; omega⟩)
      else .inr (truncMarkerTok (b :: n :: r2))
  else if b = 77 then
    match rest with
    | n1 :: n2 :: r2 =>
      if n1 + 256 * n2 ≤ r2.length then
        .inl (renderPush (r2.take (n1 + 256 * n2)),
          ⟨r2.drop (n1 + 256 * n2), by simp; omega⟩)
      else .inr (truncMarkerTok (b :: n1 :: n2 :: r2))
    | _ => .inr (truncMarkerTok (b :: rest))
  else if b = 78 then
    match rest with
    | n1 :: n2 :: n3 :: n4 :: r2 =>
      if n1 + 256 * n2 + 65536 * n3 + 16777216 * n4 ≤ r2.length then
        .inl (renderPush (r2.take (n1 + 256 * n2 + 65536 * n3 + 16777216 * n4)),
          ⟨r2.drop (n1 + 256 * n2 + 65536 * n3 + 16777216 * n4), by simp; omega⟩)
      else .inr (truncMarkerTok (b :: n1 :: n2 :: n3 :: n4 :: r2))
    | _ => .inr (truncMarkerTok (b :: rest))
  else .inl (renderOpcodeTok b, ⟨rest, by simp⟩)

/-- Modelled from the spec: the total disassembler scan (libauth's
`disassembleBytecodeBCH`, missing from the sources).  A single
left-to-right pass driven by `decodeOne`; it always produces a token
list, degrading to an explicit truncation marker on malformed input. -/
def disasmTokens : List Nat → List (List Char)
  | [] => []
  | b :: rest =>
    match decodeOne b rest with
    | .inl (tok, r) => tok :: disasmTokens r.1
    | .inr marker => [marker]
termination_by bs => bs.length
decreasing_by
  have := r.2
  simp
  omega

/-- The disassembler exposed by the module: bytecode to assembly text. -/
def disassembleBytecodeBCH (bs : List Nat) : String :=
  String.mk (joinTokens (disasmTokens bs))

/-- The singleton compiler's mutable configuration: its script table (the
reexport module creates it once with empty scripts and operations). -/
structure WrapperState where
  scripts : List (String × String)
  deriving DecidableEq, Repr

/-- State right after `createCompilerBCH({ scripts: {}, operations: {} })`. -/
def initialWrapperState : WrapperState := ⟨[]⟩

/-- JavaScript property assignment on an object modelled as an association
list: overwrite the first binding of the key, or add one. -/
def insertA : String → String → List (String × String) → List (String × String)
  | k, v, [] => [(k, v)]
  | k, v, e :: es => if e.1 = k then (k, v) :: es else e :: insertA k v es

/-- `Array.prototype.join(' ')` over the diagnostic messages. -/
def joinStrings : List String → String
  | [] => ""
  | [s] => s
  | s :: ss => s ++ " " ++ joinStrings ss

/-- The configuration the wrapped compiler sees after the assignment
`compiler.configuration.scripts["script"] = script`. -/
def wrapperConfig (st : WrapperState) (script : String) : CompilerConfiguration :=
  ⟨insertA "script" script st.scripts, []⟩

/-- The request the wrapper always passes:
`{ data: {}, scriptId: "script" }`. -/
def wrapperRequest : CompilationRequest := ⟨"script", []⟩

/-- The string the wrapper throws on failure:
``` `CashAssembly compilation ${result.errorType} error: ${result.errors.map((err) => err.error).join(' ')}` ```. -/
def formatThrown (errorType : Stage) (errors : List Diagnostic) : String :=
  "CashAssembly compilation " ++ stageName errorType ++ " error: " ++
    joinStrings (errors.map (fun e => e.error))

/-- The reexported `cashAssemblyToBin` wrapper: overwrite the singleton
compiler's sole script slot, generate bytecode, return it on success and
throw the formatted string on failure.  The thrown value is modelled as
`Except.error`; the returned state is the singleton's configuration after
the call. -/
def cashAssemblyToBin (st : WrapperState) (script : String) :
    Except String (List Nat) × WrapperState :=
  let st' : WrapperState := ⟨insertA "script" script st.scripts⟩
  match generateBytecode (wrapperConfig st script) wrapperRequest with
  | .success b => (.ok b, st')
  | .failure et errs => (.error (formatThrown et errs), st')

/-- A session: the singleton compiler state after a sequence of wrapper
calls (most recent first). -/
def runSession : List String → WrapperState
  | [] => initialWrapperState
  | s :: rest => (cashAssemblyToBin (runSession rest) s).2

/-! ### Tokenizer: splitting is a left inverse of joining -/

theorem tokenizeGo_all_nonWs (t : List Char) (ht : ∀ c ∈ t, isWs c = false) :
    ∀ cur : List Char, cur.reverse ++ t ≠ [] → tokenizeGo cur t = [cur.reverse ++ t] := by
  induction t with
  | nil =>
    intro cur h
    simp only [List.append_nil] at h ⊢
    have : cur.isEmpty = false := by
      cases cur with
      | nil => simp at h
      | cons a l => rfl
    simp [tokenizeGo, this]
  | cons c cs ih =>
    intro cur h
    have hc : isWs c = false := ht c (by simp)
    rw [tokenizeGo, hc]
    simp only [Bool.false_eq_true, if_false]
    have := ih (fun x hx => ht x (by simp [hx])) (c :: cur) (by simp)
    rw [this]
    simp

theorem tokenizeGo_word_space (t : List Char) (ht : ∀ c ∈ t, isWs c = false)
    (rest : List Char) :
    ∀ cur : List Char, cur.reverse ++ t ≠ [] →
      tokenizeGo cur (t ++ ' ' :: rest) = (cur.reverse ++ t) :: tokenizeGo [] rest := by
  induction t with
  | nil =>
    intro cur h
    simp only [List.append_nil] at h ⊢
    have hcur : cur.isEmpty = false := by
      cases cur with
      | nil => simp at h
      | cons a l => rfl
    rw [List.nil_append, tokenizeGo]
    simp [isWs, hcur]
  | cons c cs ih =>
    intro cur h
    have hc : isWs c = false := ht c (by simp)
    rw [List.cons_append, tokenizeGo, hc]
    simp only [Bool.false_eq_true, if_false]
    have := ih (fun x hx => ht x (by simp [hx])) (c :: cur) (by simp)
    rw [this]
    simp

theorem tokenize_joinTokens (ts : List (List Char))
    (h : ∀ t ∈ ts, t ≠ [] ∧ ∀ c ∈ t, isWs c = false) :
    tokenize (joinTokens ts) = ts := by
  induction ts with
  | nil => rfl
  | cons t ts ih =>
    cases ts with
    | nil =>
      have ht := h t (by simp)
      rw [joinTokens, tokenize]
      have := tokenizeGo_all_nonWs t ht.2 [] (by simpa using ht.1)
      simpa using this
    | cons t2 ts2 =>
      have ht := h t (by simp)
      rw [joinTokens, tokenize]
      have := tokenizeGo_word_space t ht.2 (joinTokens (t2 :: ts2)) []
        (by simpa using ht.1)
      rw [this]
      simp only [List.reverse_nil, List.nil_append]
      have htail : tokenizeGo [] (joinTokens (t2 :: ts2)) = t2 :: ts2 :=
        ih (fun x hx => h x (by simp [hx]))
      rw [htail]
      all_goals simp

/-! ### Hexadecimal rendering and parsing -/

theorem hexVal_hexDig {d : Nat} (h : d < 16) : hexVal (hexDig d) = some d := by
  interval_cases d <;> rfl

theorem hexDig_prop (d : Nat) : isWs (hexDig d) = false ∧ hexDig d ≠ '<' := by
  rcases Nat.lt_or_ge d 16 with h | h
  · interval_cases d <;> exact ⟨rfl, by decide⟩
  · have : hexDig d = '0' := by
      unfold hexDig
      exact List.getD_eq_default _ _ (by norm_num [hexChars]; omega)
    rw [this]
    exact ⟨rfl, by decide⟩

theorem toHex_prop : ∀ bs : List Nat, ∀ c ∈ toHex bs, isWs c = false ∧ c ≠ '<' := by
  intro bs
  induction bs with
  | nil => simp [toHex]
  | cons b bs ih =>
    intro c hc
    rw [toHex] at hc
    simp only [List.mem_cons] at hc
    rcases hc with h1 | h1 | h1
    · rw [h1]; exact hexDig_prop _
    · rw [h1]; exact hexDig_prop _
    · exact ih c h1

theorem parseHexChars_toHex : ∀ bs : List Nat, (∀ b ∈ bs, b < 256) →
    parseHexChars (toHex bs) = some bs := by
  intro bs
  induction bs with
  | nil => intro; rfl
  | cons b bs ih =>
    intro h
    have hb : b < 256 := h b (by simp)
    have h1 : hexVal (hexDig (b / 16)) = some (b / 16) := hexVal_hexDig (by omega)
    have h2 : hexVal (hexDig (b % 16)) = some (b % 16) := hexVal_hexDig (by omega)
    have h3 : parseHexChars (toHex bs) = some bs := ih (fun x hx => h x (by simp [hx]))
    rw [toHex, parseHexChars, h1, h2, h3]
    dsimp only
    rw [show 16 * (b / 16) + b % 16 = b by omega]

/-! ### Push literals: parsing inverts rendering -/

theorem parsePushToken_renderPush (p : List Nat) (hp : ∀ b ∈ p, b < 256) :
    parsePushToken (renderPush p) = some p := by
  rw [renderPush, parsePushToken, List.getLast?_concat]
  rw [List.dropLast_concat]
  exact parseHexChars_toHex p hp

theorem renderPush_head (p : List Nat) : (renderPush p).head? = some '<' := rfl

theorem renderPush_ne_nil (p : List Nat) : renderPush p ≠ [] := by simp [renderPush]

theorem renderPush_not_ws (p : List Nat) : ∀ c ∈ renderPush p, isWs c = false := by
  intro c hc
  simp only [renderPush, List.mem_cons, List.mem_append, List.mem_singleton] at hc
  rcases hc with h | h | h | h | h | h
  · rw [h]; rfl
  · rw [h]; rfl
  · rw [h]; rfl
  · exact (toHex_prop p c h).1
  · rw [h]; rfl
  · exact absurd h (List.not_mem_nil c)

/-! ### Opcode table facts -/

theorem OPCODES_lookup_self : ∀ e ∈ OPCODES, lookupOpcode e.1.data = some e.2 := by decide

theorem OPCODES_bytes : ∀ e ∈ OPCODES, e.2 = 0 ∨ 79 ≤ e.2 := by decide

theorem OPCODES_tok_ne_nil : ∀ e ∈ OPCODES, e.1.data ≠ [] := by decide

theorem OPCODES_tok_not_ws : ∀ e ∈ OPCODES, ∀ c ∈ e.1.data, isWs c = false := by decide

theorem OPCODES_tok_head : ∀ e ∈ OPCODES, e.1.data.head? ≠ some '<' := by decide

theorem mnemonicFor_mem {b : Nat} {m : String} (h : mnemonicFor b = some m) :
    (m, b) ∈ OPCODES := by
  unfold mnemonicFor at h
  rw [Option.map_eq_some'] at h
  obtain ⟨e, hfind, hm⟩ := h
  have hb : e.2 = b := by simpa using List.find?_some hfind
  have hmem := List.mem_of_find?_eq_some hfind
  have he : e = (m, b) := by
    cases e
    simp only [Prod.mk.injEq]
    exact ⟨hm, hb⟩
  rwa [he] at hmem

theorem mnemonicFor_isSome_of_mem {e : String × Nat} (h : e ∈ OPCODES) :
    (mnemonicFor e.2).isSome = true := by
  unfold mnemonicFor
  cases hf : List.find? (fun e2 => e2.2 == e.2) OPCODES with
  | some e2 => rfl
  | none =>
    exfalso
    have := List.find?_eq_none.mp hf e h
    simp at this

theorem lookupOpcode_of_mnemonicFor {b : Nat} {m : String} (h : mnemonicFor b = some m) :
    lookupOpcode m.data = some b :=
  OPCODES_lookup_self (m, b) (mnemonicFor_mem h)

theorem lookupOpcodeIn_mem :
    ∀ (l : List (String × Nat)) {t : List Char} {b : Nat},
      lookupOpcodeIn l t = some b → ∃ e ∈ l, e.1.data = t ∧ e.2 = b := by
  intro l
  induction l with
  | nil => intro t b h; simp [lookupOpcodeIn] at h
  | cons e es ih =>
    intro t b h
    rw [lookupOpcodeIn] at h
    by_cases hd : e.1.data = t
    · rw [if_pos hd] at h
      exact ⟨e, by simp, hd, by simpa using h⟩
    · rw [if_neg hd] at h
      obtain ⟨e2, he2, h1, h2⟩ := ih h
      exact ⟨e2, by simp [he2], h1, h2⟩

theorem lookupOpcode_mem {t : List Char} {b : Nat} (h : lookupOpcode t = some b) :
    ∃ e ∈ OPCODES, e.1.data = t ∧ e.2 = b :=
  lookupOpcodeIn_mem OPCODES h

theorem lookupOpcode_head_lt {t : List Char} (h : t.head? = some '<') :
    lookupOpcode t = none := by
  cases hl : lookupOpcode t with
  | none => rfl
  | some b =>
    obtain ⟨e, he, ht, _⟩ := lookupOpcode_mem hl
    exact absurd h (ht ▸ OPCODES_tok_head e he)

theorem mnemonicFor_byte_range {b : Nat} {m : String} (h : mnemonicFor b = some m) :
    b = 0 ∨ 79 ≤ b :=
  OPCODES_bytes (m, b) (mnemonicFor_mem h)

theorem renderOpcodeTok_eq {b : Nat} {m : String} (h : mnemonicFor b = some m) :
    renderOpcodeTok b = m.data := by
  rw [renderOpcodeTok, h]

theorem renderInstrTok_props {i : Instruction} (h : wellFormedInstr i = true) :
    renderInstrTok i ≠ [] ∧ ∀ c ∈ renderInstrTok i, isWs c = false := by
  cases i with
  | opcode b =>
    rw [wellFormedInstr] at h
    obtain ⟨m, hm⟩ := Option.isSome_iff_exists.mp h
    rw [renderInstrTok, renderOpcodeTok_eq hm]
    have hmem := mnemonicFor_mem hm
    exact ⟨OPCODES_tok_ne_nil (m, b) hmem, OPCODES_tok_not_ws (m, b) hmem⟩
  | push p =>
    rw [renderInstrTok]
    exact ⟨renderPush_ne_nil p, renderPush_not_ws p⟩

/-! ### Resolver lemmas -/

theorem combinePairs_snd_mem {l : List (List Diagnostic × List Instruction)}
    {i : Instruction} :
    i ∈ (combinePairs l).2 ↔ ∃ p ∈ l, i ∈ p.2 := by
  induction l with
  | nil => simp [combinePairs]
  | cons p ps ih => simp [combinePairs, ih]

theorem wellFormed_mkPush {p : List Nat}
    (hg : (p.length ≤ maxPushSize && p.all (fun x => x < 256)) = true) :
    wellFormedInstr (mkPush p) = true := by
  rw [mkPush]
  by_cases he : p.isEmpty
  · rw [if_pos he]
    decide
  · rw [if_neg he]
    rw [wellFormedInstr]
    simp only [Bool.and_eq_true] at hg ⊢
    exact ⟨⟨by simpa using he, hg.1⟩, hg.2⟩

theorem resolveOne_opcode {t : List Char} {b : Nat} (h : lookupOpcode t = some b)
    (cfg : CompilerConfiguration) (data : List (String × List Nat)) (fuel : Nat) :
    resolveOne cfg data fuel t = ([], [.opcode b]) := by
  rw [resolveOne, h]

theorem resolveOne_wf (cfg : CompilerConfiguration) (data : List (String × List Nat)) :
    ∀ (fuel : Nat) (t : List Char), ∀ i ∈ (resolveOne cfg data fuel t).2,
      wellFormedInstr i = true := by
  intro fuel
  induction fuel with
  | zero =>
    intro t i hi
    rw [resolveOne] at hi
    cases hop : lookupOpcode t with
    | some b =>
      rw [hop] at hi
      simp at hi
      subst hi
      obtain ⟨e, he, _, hb⟩ := lookupOpcode_mem hop
      rw [wellFormedInstr]
      exact hb ▸ mnemonicFor_isSome_of_mem he
    | none =>
      rw [hop] at hi
      dsimp only at hi
      by_cases hlt : t.head? = some '<'
      · rw [if_pos hlt] at hi
        cases hp : parsePushToken t with
        | some p =>
          rw [hp] at hi
          dsimp only at hi
          by_cases hg : (p.length ≤ maxPushSize && p.all (fun x => x < 256)) = true
          · rw [if_pos hg] at hi
            simp at hi
            subst hi
            exact wellFormed_mkPush hg
          · rw [if_neg hg] at hi
            simp at hi
        | none =>
          rw [hp] at hi
          simp at hi
      · rw [if_neg hlt] at hi
        cases hs : lookupA (String.mk t) cfg.scripts with
        | some src =>
          rw [hs] at hi
          dsimp only at hi
          simp at hi
        | none =>
          rw [hs] at hi
          dsimp only at hi
          cases ho : lookupA (String.mk t) cfg.operations with
          | some pname =>
            rw [ho] at hi
            dsimp only at hi
            cases hd : lookupA pname data with
            | some payload =>
              rw [hd] at hi
              dsimp only at hi
              by_cases hg :
                  (payload.length ≤ maxPushSize && payload.all (fun x => x < 256)) = true
              · rw [if_pos hg] at hi
                simp at hi
                subst hi
                exact wellFormed_mkPush hg
              · rw [if_neg hg] at hi
                simp at hi
            | none =>
              rw [hd] at hi
              simp at hi
          | none =>
            rw [ho] at hi
            simp at hi
  | succ f ih =>
    intro t i hi
    rw [resolveOne] at hi
    cases hop : lookupOpcode t with
    | some b =>
      rw [hop] at hi
      simp at hi
      subst hi
      obtain ⟨e, he, _, hb⟩ := lookupOpcode_mem hop
      rw [wellFormedInstr]
      exact hb ▸ mnemonicFor_isSome_of_mem he
    | none =>
      rw [hop] at hi
      dsimp only at hi
      by_cases hlt : t.head? = some '<'
      · rw [if_pos hlt] at hi
        cases hp : parsePushToken t with
        | some p =>
          rw [hp] at hi
          dsimp only at hi
          by_cases hg : (p.length ≤ maxPushSize && p.all (fun x => x < 256)) = true
          · rw [if_pos hg] at hi
            simp at hi
            subst hi
            exact wellFormed_mkPush hg
          · rw [if_neg hg] at hi
            simp at hi
        | none =>
          rw [hp] at hi
          simp at hi
      · rw [if_neg hlt] at hi
        cases hs : lookupA (String.mk t) cfg.scripts with
        | some src =>
          rw [hs] at hi
          dsimp only at hi
          rw [combinePairs_snd_mem] at hi
          obtain ⟨pr, hpr, hipr⟩ := hi
          simp only [List.mem_map] at hpr
          obtain ⟨tok, _, rfl⟩ := hpr
          exact ih tok i hipr
        | none =>
          rw [hs] at hi
          dsimp only at hi
          cases ho : lookupA (String.mk t) cfg.operations with
          | some pname =>
            rw [ho] at hi
            dsimp only at hi
            cases hd : lookupA pname data with
            | some payload =>
              rw [hd] at hi
              dsimp only at hi
              by_cases hg :
                  (payload.length ≤ maxPushSize && payload.all (fun x => x < 256)) = true
              · rw [if_pos hg] at hi
                simp at hi
                subst hi
                exact wellFormed_mkPush hg
              · rw [if_neg hg] at hi
                simp at hi
            | none =>
              rw [hd] at hi
              simp at hi
          | none =>
            rw [ho] at hi
            simp at hi

theorem resolveToks_wf (cfg : CompilerConfiguration) (data : List (String × List Nat))
    (fuel : Nat) (ts : List (List Char)) :
    ∀ i ∈ (resolveToks cfg data fuel ts).2, wellFormedInstr i = true := by
  intro i hi
  rw [resolveToks, combinePairs_snd_mem] at hi
  obtain ⟨pr, hpr, hipr⟩ := hi
  simp only [List.mem_map] at hpr
  obtain ⟨tok, _, rfl⟩ := hpr
  exact resolveOne_wf cfg data fuel tok i hipr

theorem resolveOne_renderPush {p : List Nat} (h1 : p ≠ []) (h2 : p.length ≤ maxPushSize)
    (h3 : ∀ b ∈ p, b < 256) (cfg : CompilerConfiguration)
    (data : List (String × List Nat)) (fuel : Nat) :
    resolveOne cfg data fuel (renderPush p) = ([], [.push p]) := by
  rw [resolveOne, lookupOpcode_head_lt (renderPush_head p)]
  dsimp only
  rw [if_pos (renderPush_head p), parsePushToken_renderPush p h3]
  dsimp only
  have hg : (p.length ≤ maxPushSize && p.all (fun x => x < 256)) = true := by
    simp only [Bool.and_eq_true, decide_eq_true_eq, List.all_eq_true]
    exact ⟨h2, fun x hx => by simpa using h3 x hx⟩
  rw [if_pos hg, mkPush, if_neg (by simpa using h1)]

theorem resolveOne_renderOpcodeTok {b : Nat} {m : String} (hm : mnemonicFor b = some m)
    (cfg : CompilerConfiguration) (data : List (String × List Nat)) (fuel : Nat) :
    resolveOne cfg data fuel (renderOpcodeTok b) = ([], [.opcode b]) := by
  rw [renderOpcodeTok_eq hm]
  exact resolveOne_opcode (lookupOpcode_of_mnemonicFor hm) cfg data fuel

theorem resolveOne_renderInstrTok {i : Instruction} (h : wellFormedInstr i = true)
    (cfg : CompilerConfiguration) (data : List (String × List Nat)) (fuel : Nat) :
    resolveOne cfg data fuel (renderInstrTok i) = ([], [i]) := by
  cases i with
  | opcode b =>
    rw [wellFormedInstr] at h
    obtain ⟨m, hm⟩ := Option.isSome_iff_exists.mp h
    rw [renderInstrTok]
    exact resolveOne_renderOpcodeTok hm cfg data fuel
  | push p =>
    rw [wellFormedInstr] at h
    simp only [Bool.and_eq_true, Bool.not_eq_true'] at h
    rw [renderInstrTok]
    exact resolveOne_renderPush (by simpa using h.1.1) (by simpa using h.1.2)
      (fun x hx => by
        have := h.2
        rw [List.all_eq_true] at this
        simpa using this x hx) cfg data fuel

theorem resolveToks_render {instrs : List Instruction}
    (h : ∀ i ∈ instrs, wellFormedInstr i = true) (cfg : CompilerConfiguration)
    (data : List (String × List Nat)) (fuel : Nat) :
    resolveToks cfg data fuel (instrs.map renderInstrTok) = ([], instrs) := by
  induction instrs with
  | nil => rfl
  | cons i is ih =>
    have hone := resolveOne_renderInstrTok (h i (by simp)) cfg data fuel
    have htail := ih (fun j hj => h j (by simp [hj]))
    rw [resolveToks] at htail ⊢
    rw [List.map_cons, List.map_cons, combinePairs, hone, htail]
    simp

/-! ### Disassembler: decoding inverts encoding on well-formed instructions -/

theorem disasmTokens_nil : disasmTokens [] = [] := by rw [disasmTokens]

theorem disasmTokens_cons_inl {b : Nat} {rest : List Nat} {tok : List Char}
    {r : { r : List Nat // r.length ≤ rest.length }}
    (h : decodeOne b rest = .inl (tok, r)) :
    disasmTokens (b :: rest) = tok :: disasmTokens r.1 := by
  rw [disasmTokens, h]

theorem disasmTokens_cons_inr {b : Nat} {rest : List Nat} {m : List Char}
    (h : decodeOne b rest = .inr m) :
    disasmTokens (b :: rest) = [m] := by
  rw [disasmTokens, h]

theorem decodeOne_opcode {b : Nat} (h : b = 0 ∨ 79 ≤ b) (rest : List Nat) :
    decodeOne b rest = .inl (renderOpcodeTok b, ⟨rest, le_refl _⟩) := by
  rw [decodeOne.eq_def, if_neg (by omega), if_neg (by omega), if_neg (by omega),
    if_neg (by omega)]

theorem encodeInstr_ne_nil (i : Instruction) : encodeInstr i ≠ [] := by
  cases i with
  | opcode b => simp [encodeInstr]
  | push p =>
    rw [encodeInstr]
    unfold encodePush
    split
    · simp
    · split
      · simp
      · split <;> simp

theorem encodeAll_eq_nil {instrs : List Instruction} :
    encodeAll instrs = [] ↔ instrs = [] := by
  cases instrs with
  | nil => simp [encodeAll]
  | cons i is =>
    rw [encodeAll]
    simp [encodeInstr_ne_nil i]

theorem disasm_encodeInstr {i : Instruction} (h : wellFormedInstr i = true)
    (rest : List Nat) :
    disasmTokens (encodeInstr i ++ rest) = renderInstrTok i :: disasmTokens rest := by
  cases i with
  | opcode b =>
    rw [wellFormedInstr] at h
    obtain ⟨m, hm⟩ := Option.isSome_iff_exists.mp h
    have hrange := mnemonicFor_byte_range hm
    rw [encodeInstr, List.singleton_append,
      disasmTokens_cons_inl (decodeOne_opcode hrange rest)]
    rfl
  | push p =>
    rw [wellFormedInstr] at h
    simp only [Bool.and_eq_true, Bool.not_eq_true', decide_eq_true_eq] at h
    have h1 : 1 ≤ p.length := by
      have hne : p ≠ [] := by simpa using h.1.1
      cases p with
      | nil => simp at hne
      | cons a l => simp
    by_cases c75 : p.length ≤ 75
    · rw [encodeInstr, encodePush, if_pos c75, List.cons_append]
      have hd : decodeOne p.length (p ++ rest) =
          .inl (renderPush p, ⟨rest, by simp⟩) := by
        rw [decodeOne.eq_def, if_pos ⟨h1, c75⟩,
          if_pos (show p.length ≤ (p ++ rest).length by simp)]
        simp [List.take_left, List.drop_left]
      rw [disasmTokens_cons_inl hd]
      rfl
    · by_cases c255 : p.length ≤ 255
      · rw [encodeInstr, encodePush, if_neg c75, if_pos c255, List.cons_append,
          List.cons_append]
        have hd : decodeOne 76 (p.length :: (p ++ rest)) =
            .inl (renderPush p, ⟨rest, by simp; omega⟩) := by
          rw [decodeOne.eq_def, if_neg (by omega), if_pos rfl]
          dsimp only
          rw [if_pos (show p.length ≤ (p ++ rest).length by simp)]
          simp [List.take_left, List.drop_left]
        rw [disasmTokens_cons_inl hd]
        rfl
      · by_cases c65535 : p.length ≤ 65535
        · rw [encodeInstr, encodePush, if_neg c75, if_neg c255, if_pos c65535,
            List.cons_append, List.cons_append, List.cons_append]
          have hd : decodeOne 77 (p.length % 256 :: p.length / 256 :: (p ++ rest)) =
              .inl (renderPush p, ⟨rest, by simp; omega⟩) := by
            rw [decodeOne.eq_def, if_neg (by omega), if_neg (by omega), if_pos rfl]
            dsimp only
            simp only [show p.length % 256 + 256 * (p.length / 256) = p.length from
              by omega]
            rw [if_pos (show p.length ≤ (p ++ rest).length by simp)]
            simp [List.take_left, List.drop_left]
          rw [disasmTokens_cons_inl hd]
          rfl
        · rw [encodeInstr, encodePush, if_neg c75, if_neg c255, if_neg c65535,
            List.cons_append, List.cons_append, List.cons_append, List.cons_append,
            List.cons_append]
          have hd : decodeOne 78 (p.length % 256 :: p.length / 256 % 256 ::
              p.length / 65536 % 256 :: p.length / 16777216 :: (p ++ rest)) =
              .inl (renderPush p, ⟨rest, by simp; omega⟩) := by
            rw [decodeOne.eq_def, if_neg (by omega), if_neg (by omega), if_neg (by omega),
              if_pos rfl]
            dsimp only
            simp only [show p.length % 256 + 256 * (p.length / 256 % 256) +
              65536 * (p.length / 65536 % 256) + 16777216 * (p.length / 16777216) =
              p.length from by omega]
            rw [if_pos (show p.length ≤ (p ++ rest).length by simp)]
            simp [List.take_left, List.drop_left]
          rw [disasmTokens_cons_inl hd]
          rfl

theorem disasm_encodeAll {instrs : List Instruction}
    (h : ∀ i ∈ instrs, wellFormedInstr i = true) :
    disasmTokens (encodeAll instrs) = instrs.map renderInstrTok := by
  induction instrs with
  | nil => exact disasmTokens_nil
  | cons i is ih =>
    rw [encodeAll, disasm_encodeInstr (h i (by simp)), List.map_cons,
      ih (fun j hj => h j (by simp [hj]))]

/-! ### Wrapper state lemmas -/

theorem lookupA_insertA_self (k v : String) (l : List (String × String)) :
    lookupA k (insertA k v l) = some v := by
  induction l with
  | nil => simp [insertA, lookupA]
  | cons e es ih =>
    rw [insertA]
    by_cases he : e.1 = k
    · rw [if_pos he, lookupA, if_pos rfl]
    · rw [if_neg he, lookupA, if_neg (fun hk => he hk.symm)]
      exact ih

theorem insertA_insertA (k v w : String) (l : List (String × String)) :
    insertA k v (insertA k w l) = insertA k v l := by
  induction l with
  | nil => simp [insertA]
  | cons e es ih =>
    rw [insertA]
    by_cases he : e.1 = k
    · rw [if_pos he, insertA, if_pos rfl, insertA, if_pos he]
    · rw [if_neg he, insertA, if_neg he, insertA, if_neg he, ih]

theorem cashAssemblyToBin_snd (st : WrapperState) (s : String) :
    (cashAssemblyToBin st s).2 = ⟨insertA "script" s st.scripts⟩ := by
  rw [cashAssemblyToBin]
  cases generateBytecode (wrapperConfig st s) wrapperRequest <;> rfl

theorem cashAssemblyToBin_fst (st : WrapperState) (s : String) :
    (cashAssemblyToBin st s).1 =
      match generateBytecode (wrapperConfig st s) wrapperRequest with
      | .success b => .ok b
      | .failure et errs => .error (formatThrown et errs) := by
  rw [cashAssemblyToBin]
  cases generateBytecode (wrapperConfig st s) wrapperRequest <;> rfl

/-! ### The compiled-output round trip -/

theorem generateBytecode_success_inv {cfg : CompilerConfiguration}
    {req : CompilationRequest} {b : List Nat}
    (h : generateBytecode cfg req = .success b) :
    ∃ src instrs, lookupA req.scriptId cfg.scripts = some src ∧
      resolveToks cfg req.data maxResolutionDepth (tokenize src.data) = ([], instrs) ∧
      b = encodeAll instrs := by
  rw [generateBytecode] at h
  cases hsrc : lookupA req.scriptId cfg.scripts with
  | none => rw [hsrc] at h; simp at h
  | some src =>
    rw [hsrc] at h
    dsimp only at h
    cases hres : resolveToks cfg req.data maxResolutionDepth (tokenize src.data) with
    | mk ds instrs =>
      rw [hres] at h
      cases ds with
      | cons d ds2 => simp at h
      | nil =>
        dsimp only at h
        refine ⟨src, instrs, rfl, hres, ?_⟩
        injection h with hh
        exact hh.symm

theorem rendered_tokens_nonWs {instrs : List Instruction}
    (hwf : ∀ i ∈ instrs, wellFormedInstr i = true) :
    ∀ t ∈ instrs.map renderInstrTok, t ≠ [] ∧ ∀ c ∈ t, isWs c = false := by
  intro t ht
  simp only [List.mem_map] at ht
  obtain ⟨i, hi, rfl⟩ := ht
  exact renderInstrTok_props (hwf i hi)

theorem disassemble_then_compile {cfg : CompilerConfiguration}
    {req : CompilationRequest} {b : List Nat}
    (h : generateBytecode cfg req = .success b)
    (cfg2 : CompilerConfiguration) (req2 : CompilationRequest) (src2 : String)
    (hsrc2 : lookupA req2.scriptId cfg2.scripts = some src2)
    (htext : src2 = disassembleBytecodeBCH b) :
    generateBytecode cfg2 req2 = .success b := by
  obtain ⟨src, instrs, hsrc, hres, hb⟩ := generateBytecode_success_inv h
  have hwf : ∀ i ∈ instrs, wellFormedInstr i = true := by
    intro i hi
    exact resolveToks_wf cfg req.data maxResolutionDepth (tokenize src.data) i
      (by rw [hres]; exact hi)
  have hdis : disasmTokens b = instrs.map renderInstrTok := by
    rw [hb]
    exact disasm_encodeAll hwf
  have htok : tokenize src2.data = instrs.map renderInstrTok := by
    rw [htext]
    show tokenize (String.mk (joinTokens (disasmTokens b))).data = _
    rw [show (String.mk (joinTokens (disasmTokens b))).data =
      joinTokens (disasmTokens b) from rfl, hdis]
    exact tokenize_joinTokens _ (rendered_tokens_nonWs hwf)
  rw [generateBytecode, hsrc2]
  dsimp only
  rw [htok, resolveToks_render hwf]
  dsimp only
  rw [hb]

/-! ### Unknown identifiers and session lemmas -/

theorem resolveOne_unknown {cfg : CompilerConfiguration} {data : List (String × List Nat)}
    {fuel : Nat} {t : List Char}
    (h1 : lookupOpcode t = none) (h2 : t.head? ≠ some '<')
    (h3 : lookupA (String.mk t) cfg.scripts = none)
    (h4 : lookupA (String.mk t) cfg.operations = none) :
    resolveOne cfg data fuel t = ([unknownIdentifierDiag t], []) := by
  rw [resolveOne, h1]
  dsimp only
  rw [if_neg h2, h3]
  dsimp only
  rw [h4]

theorem insertA_runSession (h : List String) (s : String) :
    insertA "script" s (runSession h).scripts = [("script", s)] := by
  induction h with
  | nil => rfl
  | cons x xs ih =>
    rw [runSession, cashAssemblyToBin_snd]
    show insertA "script" s (insertA "script" x (runSession xs).scripts) = _
    rw [insertA_insertA]
    exact ih

/-! ### Claims -/

/-- C1 counterexample: the claim that the exposed compile entry point never
raises a thrown value is false on the code — compiling the unresolvable
script `"foo"` makes `cashAssemblyToBin` throw a formatted string. -/
theorem c1_counterexample :
    (cashAssemblyToBin initialWrapperState "foo").1 =
      Except.error "CashAssembly compilation resolve error: Unknown identifier: foo" := by
  rfl

/-- C1 (amended): the inner `generateBytecode` call reports compilation
errors inside its returned `CompilationResult` value in both the success
and the failure case, but the exposed `cashAssemblyToBin` entry point
returns the bare bytecode on success and throws the formatted diagnostic
string on failure. -/
theorem c1_compile_result_reporting (st : WrapperState) (s : String) :
    (∀ b, generateBytecode (wrapperConfig st s) wrapperRequest = .success b →
      (cashAssemblyToBin st s).1 = .ok b) ∧
    (∀ et errs, generateBytecode (wrapperConfig st s) wrapperRequest = .failure et errs →
      (cashAssemblyToBin st s).1 = .error (formatThrown et errs)) := by
  constructor
  · intro b hb
    rw [cashAssemblyToBin_fst, hb]
  · intro et errs hf
    rw [cashAssemblyToBin_fst, hf]

/-- C1 witness: concrete failing compile where the wrapper throws the
formatted string carrying the error-type tag and the diagnostic. -/
theorem c1_compile_result_reporting_witness :
    generateBytecode (wrapperConfig initialWrapperState "foo") wrapperRequest =
      CompilationResult.failure Stage.resolve [unknownIdentifierDiag ['f', 'o', 'o']] ∧
    (cashAssemblyToBin initialWrapperState "foo").1 =
      Except.error (formatThrown Stage.resolve [unknownIdentifierDiag ['f', 'o', 'o']]) :=
  ⟨by decide, (c1_compile_result_reporting initialWrapperState "foo").2 _ _ (by decide)⟩

/-- C2 counterexample: the claim that a compile call mutates no state that
outlives the call is false on the code — one call changes the singleton
compiler's script table for good. -/
theorem c2_counterexample :
    (cashAssemblyToBin initialWrapperState "OP_1").2 ≠ initialWrapperState := by
  decide

/-- C2 (amended): each `cashAssemblyToBin` call overwrites the shared
singleton compiler's `scripts["script"]` slot, a write that persists after
the call returns; but because every call performs this overwrite before
generating bytecode, the residual state never changes the outcome of any
later call. -/
theorem c2_mutation_persists_results_unaffected (st : WrapperState) (s s2 : String) :
    (cashAssemblyToBin st s).2 = ⟨insertA "script" s st.scripts⟩ ∧
    (cashAssemblyToBin ((cashAssemblyToBin st s).2) s2).1 = (cashAssemblyToBin st s2).1 := by
  refine ⟨cashAssemblyToBin_snd st s, ?_⟩
  rw [cashAssemblyToBin_fst, cashAssemblyToBin_fst, cashAssemblyToBin_snd]
  have : wrapperConfig ⟨insertA "script" s st.scripts⟩ s2 = wrapperConfig st s2 := by
    rw [wrapperConfig, wrapperConfig]
    show CompilerConfiguration.mk (insertA "script" s2 (insertA "script" s st.scripts)) [] = _
    rw [insertA_insertA]
  rw [this]

/-- C6: compile is idempotent across repeated calls — invoking the wrapped
compile twice with the same script text yields the same result both times,
the first call's state update notwithstanding. -/
theorem c6_compile_idempotent (st : WrapperState) (s : String) :
    (cashAssemblyToBin ((cashAssemblyToBin st s).2) s).1 = (cashAssemblyToBin st s).1 := by
  rw [cashAssemblyToBin_fst, cashAssemblyToBin_fst, cashAssemblyToBin_snd]
  have : wrapperConfig ⟨insertA "script" s st.scripts⟩ s = wrapperConfig st s := by
    rw [wrapperConfig, wrapperConfig]
    show CompilerConfiguration.mk (insertA "script" s (insertA "script" s st.scripts)) [] = _
    rw [insertA_insertA]
  rw [this]

/-- C10: the exposed compile entry point is deterministic in its script
argument alone — after any two call histories in the same session, calling
it with equal script strings produces equal outcomes, because each call
overwrites the singleton compiler's sole script slot before generating
bytecode. -/
theorem c10_session_determinism (h1 h2 : List String) (s : String) :
    (cashAssemblyToBin (runSession h1) s).1 = (cashAssemblyToBin (runSession h2) s).1 := by
  have key : ∀ h : List String, wrapperConfig (runSession h) s =
      CompilerConfiguration.mk [("script", s)] [] := by
    intro h
    rw [wrapperConfig]
    show CompilerConfiguration.mk (insertA "script" s (runSession h).scripts) [] = _
    rw [insertA_runSession]
  rw [cashAssemblyToBin_fst, cashAssemblyToBin_fst, key h1, key h2]

/-- C3: for every byte sequence produced by a successful compile, the
assembly text produced by disassembling it compiles again — through the
repository's own entry point, under any wrapper state — to exactly the
same bytecode. -/
theorem c3_disassemble_compile_roundtrip (cfg : CompilerConfiguration)
    (req : CompilationRequest) (b : List Nat)
    (h : generateBytecode cfg req = .success b) (st : WrapperState) :
    (cashAssemblyToBin st (disassembleBytecodeBCH b)).1 = .ok b := by
  have hgen : generateBytecode (wrapperConfig st (disassembleBytecodeBCH b))
      wrapperRequest = .success b := by
    refine disassemble_then_compile h _ _ (disassembleBytecodeBCH b) ?_ rfl
    exact lookupA_insertA_self _ _ _
  rw [cashAssemblyToBin_fst, hgen]

/-- C3 witness: a concrete successful compile whose output bytecode
disassembles and recompiles to itself. -/
theorem c3_disassemble_compile_roundtrip_witness :
    generateBytecode ⟨[("script", "OP_DUP <0xdead>")], []⟩ ⟨"script", []⟩ =
      CompilationResult.success [118, 2, 222, 173] ∧
    (cashAssemblyToBin initialWrapperState
        (disassembleBytecodeBCH [118, 2, 222, 173])).1 =
      Except.ok [118, 2, 222, 173] :=
  ⟨by decide,
    c3_disassemble_compile_roundtrip ⟨[("script", "OP_DUP <0xdead>")], []⟩
      ⟨"script", []⟩ [118, 2, 222, 173] (by decide) initialWrapperState⟩

/-- C4: the emitted push encoding is the minimal length class determined
solely by payload length — direct push for lengths 1..75, PUSHDATA1 for
76..255, PUSHDATA2 for 256..65535; the encoding always spends exactly the
minimal header size for its payload length, and the resolver emits exactly
this encoding for a parsed push literal. -/
theorem c4_minimal_push_encoding (p : List Nat) (cfg : CompilerConfiguration)
    (data : List (String × List Nat)) (fuel : Nat) :
    (1 ≤ p.length → p.length ≤ 75 → encodePush p = p.length :: p) ∧
    (76 ≤ p.length → p.length ≤ 255 → encodePush p = 76 :: p.length :: p) ∧
    (256 ≤ p.length → p.length ≤ 65535 →
      encodePush p = 77 :: p.length % 256 :: p.length / 256 :: p) ∧
    (encodePush p).length = p.length + minHeader p.length ∧
    (p ≠ [] → p.length ≤ maxPushSize → (∀ x ∈ p, x < 256) →
      resolveOne cfg data fuel (renderPush p) = ([], [.push p]) ∧
      encodeInstr (.push p) = encodePush p) := by
  refine ⟨?_, ?_, ?_, ?_, ?_⟩
  · intro _ h75
    rw [encodePush, if_pos h75]
  · intro h76 h255
    rw [encodePush, if_neg (by omega), if_pos h255]
  · intro h256 h65535
    rw [encodePush, if_neg (by omega), if_neg (by omega), if_pos h65535]
  · by_cases a : p.length ≤ 75
    · rw [encodePush, if_pos a, minHeader, if_pos a]
      simp
    · by_cases b : p.length ≤ 255
      · rw [encodePush, if_neg a, if_pos b, minHeader, if_neg a, if_pos b]
        simp
      · by_cases c : p.length ≤ 65535
        · rw [encodePush, if_neg a, if_neg b, if_pos c, minHeader, if_neg a, if_neg b,
            if_pos c]
          simp
        · rw [encodePush, if_neg a, if_neg b, if_neg c, minHeader, if_neg a, if_neg b,
            if_neg c]
          simp
  · intro h1 h2 h3
    exact ⟨resolveOne_renderPush h1 h2 h3 cfg data fuel, rfl⟩

/-- C4 witness: a 76-byte payload takes the PUSHDATA1 class. -/
theorem c4_minimal_push_encoding_witness :
    76 ≤ (List.replicate 76 0).length ∧ (List.replicate 76 0).length ≤ 255 ∧
    encodePush (List.replicate 76 0) = 76 :: 76 :: List.replicate 76 0 := by
  refine ⟨by decide, by decide, ?_⟩
  have := (c4_minimal_push_encoding (List.replicate 76 0) ⟨[], []⟩ [] 0).2.1
    (by decide) (by decide)
  simpa using this

/-- C5: a script whose two tokens are both identifiers bound nowhere
compiles to a `failure` carrying exactly the two resolve diagnostics, in
source order; the host-visible thrown value carries the error-type tag and
one message per diagnostic, joined for display. -/
theorem c5_two_unknown_identifiers (st : WrapperState) (s : String) (t1 t2 : List Char)
    (htok : tokenize s.data = [t1, t2])
    (h11 : lookupOpcode t1 = none) (h12 : t1.head? ≠ some '<')
    (h13 : lookupA (String.mk t1) (insertA "script" s st.scripts) = none)
    (h21 : lookupOpcode t2 = none) (h22 : t2.head? ≠ some '<')
    (h23 : lookupA (String.mk t2) (insertA "script" s st.scripts) = none) :
    generateBytecode (wrapperConfig st s) wrapperRequest =
      .failure .resolve [unknownIdentifierDiag t1, unknownIdentifierDiag t2] ∧
    (cashAssemblyToBin st s).1 =
      .error (formatThrown .resolve
        [unknownIdentifierDiag t1, unknownIdentifierDiag t2]) := by
  have hfail : generateBytecode (wrapperConfig st s) wrapperRequest =
      .failure .resolve [unknownIdentifierDiag t1, unknownIdentifierDiag t2] := by
    rw [generateBytecode]
    rw [show lookupA wrapperRequest.scriptId (wrapperConfig st s).scripts = some s from
      lookupA_insertA_self _ _ _]
    dsimp only
    rw [htok, resolveToks, List.map_cons, List.map_cons, List.map_nil]
    rw [@resolveOne_unknown (wrapperConfig st s) wrapperRequest.data maxResolutionDepth
        t1 h11 h12 h13 rfl,
      @resolveOne_unknown (wrapperConfig st s) wrapperRequest.data maxResolutionDepth
        t2 h21 h22 h23 rfl]
    rfl
  exact ⟨hfail, by rw [cashAssemblyToBin_fst, hfail]⟩

/-- C5 witness: `"foo bar"` has exactly two unknown identifiers; compiling
it aggregates both resolve diagnostics and the host sees the joined
message. -/
theorem c5_two_unknown_identifiers_witness :
    tokenize ("foo bar" : String).data = [['f', 'o', 'o'], ['b', 'a', 'r']] ∧
    generateBytecode (wrapperConfig initialWrapperState "foo bar") wrapperRequest =
      CompilationResult.failure Stage.resolve
        [unknownIdentifierDiag ['f', 'o', 'o'], unknownIdentifierDiag ['b', 'a', 'r']] ∧
    (cashAssemblyToBin initialWrapperState "foo bar").1 =
      Except.error (formatThrown Stage.resolve
        [unknownIdentifierDiag ['f', 'o', 'o'], unknownIdentifierDiag ['b', 'a', 'r']]) := by
  have h := c5_two_unknown_identifiers initialWrapperState "foo bar"
    ['f', 'o', 'o'] ['b', 'a', 'r'] (by decide) (by decide) (by decide) (by decide)
    (by decide) (by decide) (by decide)
  exact ⟨by decide, h.1, h.2⟩

/-- C7: compiling an empty source string succeeds with empty bytecode, and
a successful result's bytecode is nonempty exactly when the resolved
program contains at least one instruction. -/
theorem c7_empty_script (cfg : CompilerConfiguration) (req : CompilationRequest) :
    (lookupA req.scriptId cfg.scripts = some "" → generateBytecode cfg req = .success []) ∧
    (∀ src b, lookupA req.scriptId cfg.scripts = some src →
      generateBytecode cfg req = .success b →
      (b ≠ [] ↔ (resolveToks cfg req.data maxResolutionDepth (tokenize src.data)).2 ≠ [])) := by
  constructor
  · intro h
    rw [generateBytecode, h]
    rfl
  · intro src b hsrc hsucc
    obtain ⟨src2, instrs, hsrc2, hres, hb⟩ := generateBytecode_success_inv hsucc
    have heq : src2 = src := by
      rw [hsrc] at hsrc2
      injection hsrc2 with hh
      exact hh.symm
    subst heq
    rw [hres, hb]
    simp [Ne, encodeAll_eq_nil]

/-- C7 witness: the empty script compiles to the empty byte sequence. -/
theorem c7_empty_script_witness :
    lookupA "script" ([("script", "")] : List (String × String)) = some "" ∧
    generateBytecode ⟨[("script", "")], []⟩ ⟨"script", []⟩ =
      CompilationResult.success [] :=
  ⟨by decide, (c7_empty_script ⟨[("script", "")], []⟩ ⟨"script", []⟩).1 (by decide)⟩

/-- C8: the disassembler is total and never fails — its output is empty
exactly on empty input, and a truncated push (a PUSHDATA1 byte with no
length byte, or with a length exceeding the remaining bytes) produces an
explicit truncation marker over the bytes read so far instead of an
error. -/
theorem c8_disassembler_total (bs : List Nat) (n : Nat) (p : List Nat) :
    (disasmTokens bs = [] ↔ bs = []) ∧
    disasmTokens [76] = [truncMarkerTok [76]] ∧
    (p.length < n → disasmTokens (76 :: n :: p) = [truncMarkerTok (76 :: n :: p)]) := by
  refine ⟨?_, ?_, ?_⟩
  · cases bs with
    | nil => simp [disasmTokens_nil]
    | cons b rest =>
      constructor
      · intro h
        exfalso
        cases hd : decodeOne b rest with
        | inl pr =>
          obtain ⟨tok, r⟩ := pr
          rw [disasmTokens_cons_inl hd] at h
          simp at h
        | inr m =>
          rw [disasmTokens_cons_inr hd] at h
          simp at h
      · intro h
        simp at h
  · have hd : decodeOne 76 ([] : List Nat) = .inr (truncMarkerTok [76]) := by
      rw [decodeOne.eq_def, if_neg (by omega), if_pos rfl]
    exact disasmTokens_cons_inr hd
  · intro hlt
    have hd : decodeOne 76 (n :: p) = .inr (truncMarkerTok (76 :: n :: p)) := by
      rw [decodeOne.eq_def, if_neg (by omega), if_pos rfl]
      dsimp only
      rw [if_neg (by omega)]
    exact disasmTokens_cons_inr hd

/-- C8 witness: a PUSHDATA1 announcing one byte with none following
disassembles to the truncation marker. -/
theorem c8_disassembler_total_witness :
    ([] : List Nat).length < 1 ∧ disasmTokens [76, 1] = [truncMarkerTok [76, 1]] :=
  ⟨by decide, (c8_disassembler_total [] 1 []).2.2 (by decide)⟩

/-- C9 counterexample: the claim quantifies over every identifier table
containing cyclic script references, but a cycle the compiled script never
reaches does not make compilation fail — here the table contains the cycle
`a → b → a` yet compiling `main` succeeds. -/
theorem c9_counterexample :
    generateBytecode ⟨[("main", "OP_1"), ("a", "b"), ("b", "a")], []⟩ ⟨"main", []⟩ =
      CompilationResult.success [81] := by
  decide

/-- C9 (amended): when identifier expansion of the compiled script reaches
a cyclic reference — here, a script whose single token names the script
itself — compilation terminates and returns a `failure` whose diagnostic is
the resolve-stage cycle/depth-check error, at every expansion depth. -/
theorem c9_cycle_depth_check (cfg : CompilerConfiguration) (req : CompilationRequest)
    (src : String) (t : List Char)
    (hsrc : lookupA req.scriptId cfg.scripts = some src)
    (htok : tokenize src.data = [t])
    (hid : String.mk t = req.scriptId)
    (h1 : lookupOpcode t = none) (h2 : t.head? ≠ some '<') :
    generateBytecode cfg req = .failure .resolve [cycleDiag t] := by
  have key : ∀ fuel : Nat, resolveOne cfg req.data fuel t = ([cycleDiag t], []) := by
    intro fuel
    induction fuel with
    | zero =>
      rw [resolveOne, h1]
      dsimp only
      rw [if_neg h2, hid, hsrc]
    | succ f ih =>
      rw [resolveOne, h1]
      dsimp only
      rw [if_neg h2, hid, hsrc]
      dsimp only
      rw [htok, List.map_cons, List.map_nil, ih]
      rfl
  rw [generateBytecode, hsrc]
  dsimp only
  rw [htok, resolveToks, List.map_cons, List.map_nil, key maxResolutionDepth]
  rfl

/-- C9 witness: the directly self-referential script `a` fails with the
cycle diagnostic. -/
theorem c9_cycle_depth_check_witness :
    lookupA "a" ([("a", "a")] : List (String × String)) = some "a" ∧
    tokenize ("a" : String).data = [['a']] ∧
    generateBytecode ⟨[("a", "a")], []⟩ ⟨"a", []⟩ =
      CompilationResult.failure Stage.resolve [cycleDiag ['a']] :=
  ⟨by decide, by decide,
    c9_cycle_depth_check ⟨[("a", "a")], []⟩ ⟨"a", []⟩ "a" ['a']
      (by decide) (by decide) (by decide) (by decide) (by decide)⟩

end BchTxEditor
